import Mathlib

/-!
Verification of the dependency-aware parallel conversion pipeline of the
ErpNext-RAG-Microservices-Migration repository.

The development shallowly embeds the Python modules under
`Accounts-Modernization/backend` that the specification's testable
properties talk about:

* `utils/pre_indexer.py` — `DependencyScheduler.build_dependency_levels`
* `redis/redis_store.py` — `RedisStore` (content fingerprints, conversion cache)
* `utils/file_chunker.py` — `FileChunker.chunk_file` / `reassemble_chunks`
* `utils/worker_pool.py` — `ConversionWorker._process_work_item`
* `converter/ai_converter.py` — `AIConverter._convert_file_with_model`,
  `AIConverter._convert_with_chunks`

External collaborators (the AST parser, the HTTP translation engine, prompt
construction, wall-clock timing) are out of scope of the core per the
specification and are abstracted as explicit inputs/oracles.  Stateful Redis
code is embedded by explicit state passing over a `RedisState` record.
-/

namespace ErpMig

set_option maxRecDepth 10000

/-! ## Generic helpers (ordered sets as duplicate-free lists) -/

/-- Insert into an ordered set represented as a duplicate-free list
(models Python `set.add`; iteration order of the embedding is insertion
order, a legitimate refinement of Python's unspecified set order). -/
def insertNew (l : List String) (x : String) : List String :=
  if x ∈ l then l else l ++ [x]

/-- Association-list lookup with `defaultdict(set)` semantics:
a missing key has an empty dependency set. -/
def lookupDeps (m : List (String × List String)) (k : String) : List String :=
  match m with
  | [] => []
  | (k', ds) :: rest => if k' = k then ds else lookupDeps rest k

/-- `depends_on[file_path].add(dep)` on the association list. -/
def addDep (m : List (String × List String)) (k d : String) :
    List (String × List String) :=
  match m with
  | [] => [(k, [d])]
  | (k', ds) :: rest =>
      if k' = k then (k', insertNew ds d) :: rest else (k', ds) :: addDep rest k d

/-- Whitespace as Python's `str.strip()` sees it. -/
def pyWsChar (c : Char) : Bool :=
  c = ' ' || c = '\t' || c = '\n' || c = '\r' || c.toNat = 11 || c.toNat = 12

/-- Python `str.strip()` (structural; the kernel can evaluate it). -/
def pyStrip (s : String) : String :=
  ⟨((s.data.dropWhile pyWsChar).reverse.dropWhile pyWsChar).reverse⟩

/-- Character-list prefix test. -/
def charsPrefix : List Char → List Char → Bool
  | [], _ => true
  | _ :: _, [] => false
  | p :: ps, c :: cs => p = c && charsPrefix ps cs

/-- Python `str.startswith` (structural). -/
def strStartsWith (s pre : String) : Bool := charsPrefix pre.data s.data

/-- Split a string at every occurrence of a separator character
(structural model of `str.split`-style splitting on one character). -/
def splitOnChar (sep : Char) (s : String) : List String :=
  let rec go : List Char → List Char → List String
    | [], cur => [⟨cur.reverse⟩]
    | c :: rest, cur =>
        if c = sep then ⟨cur.reverse⟩ :: go rest [] else go rest (c :: cur)
  go s.data []

/-! ## Path helpers used by the scanned-file alias set

`build_dependency_levels` registers four aliases per scanned file:
`f['path']`, `f['name']`, `Path(f['name']).stem` and `str(Path(f['path']))`.
`pathStem` and `strPath` model the two `pathlib` computations for POSIX
relative/absolute paths. -/

/-- Index (from the left) of the last dot of a character list, if any. -/
def lastDotIdx : List Char → Option Nat
  | [] => none
  | c :: rest =>
      match lastDotIdx rest with
      | some i => some (i + 1)
      | none => if c = '.' then some 0 else none

/-- `Path(name).stem`: final path component without its last suffix
(a leading dot does not start a suffix). -/
def pathStem (s : String) : String :=
  let base := ((splitOnChar '/' s).getLastD s)
  match lastDotIdx base.data with
  | some i => if i = 0 then base else ⟨base.data.take i⟩
  | none => base

/-- `str(Path(p))`: collapse duplicate separators and `.` components. -/
def strPath (p : String) : String :=
  let absPrefix := if strStartsWith p "/" then "/" else ""
  let comps := (splitOnChar '/' p).filter (fun c => c ≠ "" && c ≠ ".")
  if comps.isEmpty then (if absPrefix = "/" then "/" else ".")
  else absPrefix ++ String.intercalate "/" comps

/-! ## Dependency Level Scheduler (`DependencyScheduler.build_dependency_levels`) -/

/-- A scanned-file record as the scheduler consumes it
(only the `path` and `name` keys are read). -/
structure ScannedFile where
  path : String
  name : String
deriving Repr, DecidableEq

/-- The four aliases the scheduler registers for a scanned file. -/
def aliasesOf (f : ScannedFile) : List String :=
  [f.path, f.name, pathStem f.name, strPath f.path]

/-- `actual_files`: the alias set of all scanned files (insertion-ordered). -/
def actualFiles (scanned : List ScannedFile) : List String :=
  scanned.foldl (fun acc f => (aliasesOf f).foldl insertNew acc) []

/-- The inner loop body of the scan (`for dep in deps:`): record the edge
in `depends_on`, and add the dependency to `all_files` only when it is
itself scanned. -/
def scanDepStep (filtering : Bool) (actual : List String) (k : String)
    (acc2 : List String × List (String × List String)) (d : String) :
    List String × List (String × List String) :=
  let dp := addDep acc2.2 k d
  let aF := if !filtering || d ∈ actual then insertNew acc2.1 d else acc2.1
  (aF, dp)

/-- One iteration of the scan loop of `build_dependency_levels` over a
`(file_path, deps)` entry of `file_dependencies`: conditionally add the key
to `all_files`, record every dependency edge in `depends_on`, and add each
dependency to `all_files` only when it is itself scanned. -/
def scanStep (filtering : Bool) (actual : List String)
    (acc : List String × List (String × List String))
    (entry : String × List String) :
    List String × List (String × List String) :=
  if !filtering || entry.1 ∈ actual then
    entry.2.foldl (scanDepStep filtering actual entry.1)
      (insertNew acc.1 entry.1, acc.2)
  else acc

/-- The scan loop: folds `scanStep` over the dependency mapping, producing
`all_files` and `depends_on`. -/
def scanGraph (filtering : Bool) (actual : List String)
    (fd : List (String × List String)) :
    List String × List (String × List String) :=
  fd.foldl (scanStep filtering actual) ([], [])

/-- The eligibility filter of one `while` iteration: not-yet-processed files
all of whose dependencies are processed. -/
def eligibleFiles (allFiles : List String) (dep : List (String × List String))
    (processed : List String) : List String :=
  allFiles.filter (fun f =>
    decide (f ∉ processed ∧ ∀ d ∈ lookupDeps dep f, d ∈ processed))

/-- The not-yet-processed files. -/
def remainingFiles (allFiles : List String) (processed : List String) :
    List String :=
  allFiles.filter (fun f => decide (f ∉ processed))

/-- The `while len(processed) < len(all_files)` loop of
`build_dependency_levels`, with explicit fuel (one unit per iteration; the
entry point supplies `all_files.length`, which `levelsLoop_covers` proves
sufficient).  When no file is eligible the remaining files form one level
together (the circular-dependency fallback). -/
def levelsLoop (allFiles : List String) (dep : List (String × List String)) :
    Nat → List String → List (List String)
  | 0, _ => []
  | fuel + 1, processed =>
      if processed.length < allFiles.length then
        let eligible := eligibleFiles allFiles dep processed
        let current :=
          if eligible.isEmpty then remainingFiles allFiles processed
          else eligible
        current :: levelsLoop allFiles dep fuel (processed ++ current)
      else []

/-- Whether the scanned-files filter is active: Python's
`if scanned_files:` is true only for a non-empty list. -/
def filteringOf (scanned : Option (List ScannedFile)) : Bool :=
  match scanned with
  | some s => !s.isEmpty
  | none => false

/-- The alias set of the (optional) scanned files. -/
def actualOf (scanned : Option (List ScannedFile)) : List String :=
  match scanned with
  | some s => actualFiles s
  | none => []

/-- `DependencyScheduler.build_dependency_levels`
(`utils/pre_indexer.py`).  The input mapping is
`dependency_graph['file_dependencies']` (or `['import_graph']`), a
key-unique association list. -/
def build_dependency_levels (fd : List (String × List String))
    (scanned : Option (List ScannedFile)) : List (List String) :=
  let filtering := filteringOf scanned
  let actual := actualOf scanned
  let allFiles := (scanGraph filtering actual fd).1
  let dep := (scanGraph filtering actual fd).2
  if filtering && allFiles.isEmpty then
    [(scanned.getD []).map (·.path)]
  else
    levelsLoop allFiles dep allFiles.length []

/-! ## SHA-256 (models `hashlib.sha256` over 32-bit words as `Nat % 2^32`) -/

/-- Truncate to a 32-bit word. -/
def w32 (n : Nat) : Nat := n % 4294967296

/-- 32-bit right-rotation. -/
def rotr (n x : Nat) : Nat := w32 ((x >>> n) ||| (x <<< (32 - n)))

/-- SHA-256 small sigma 0. -/
def ssig0 (x : Nat) : Nat := (rotr 7 x) ^^^ (rotr 18 x) ^^^ (x >>> 3)

/-- SHA-256 small sigma 1. -/
def ssig1 (x : Nat) : Nat := (rotr 17 x) ^^^ (rotr 19 x) ^^^ (x >>> 10)

/-- SHA-256 big sigma 0. -/
def bsig0 (x : Nat) : Nat := (rotr 2 x) ^^^ (rotr 13 x) ^^^ (rotr 22 x)

/-- SHA-256 big sigma 1. -/
def bsig1 (x : Nat) : Nat := (rotr 6 x) ^^^ (rotr 11 x) ^^^ (rotr 25 x)

/-- The 64 SHA-256 round constants. -/
def sha256K : List Nat :=
  [1116352408, 1899447441, 3049323471, 3921009573,
   961987163, 1508970993, 2453635748, 2870763221,
   3624381080, 310598401, 607225278, 1426881987,
   1925078388, 2162078206, 2614888103, 3248222580,
   3835390401, 4022224774, 264347078, 604807628,
   770255983, 1249150122, 1555081692, 1996064986,
   2554220882, 2821834349, 2952996808, 3210313671,
   3336571891, 3584528711, 113926993, 338241895,
   666307205, 773529912, 1294757372, 1396182291,
   1695183700, 1986661051, 2177026350, 2456956037,
   2730485921, 2820302411, 3259730800, 3345764771,
   3516065817, 3600352804, 4094571909, 275423344,
   430227734, 506948616, 659060556, 883997877,
   958139571, 1322822218, 1537002063, 1747873779,
   1955562222, 2024104815, 2227730452, 2361852424,
   2428436474, 2756734187, 3204031479, 3329325298]

/-- `l[i]` with default `0`. -/
def wget (l : List Nat) (i : Nat) : Nat := l.getD i 0

/-- Extend a 16-word block to the 64-word message schedule. -/
def extendSchedule : Nat → List Nat → List Nat
  | 0, w => w
  | fuel + 1, w =>
      let i := w.length
      let nw := w32 (ssig1 (wget w (i - 2)) + wget w (i - 7) +
                     ssig0 (wget w (i - 15)) + wget w (i - 16))
      extendSchedule fuel (w ++ [nw])

/-- One SHA-256 compression round. -/
def sha256Round (w : List Nat) (st : List Nat) (i : Nat) : List Nat :=
  match st with
  | [a, b, c, d, e, f, g, h] =>
      let t1 := w32 (h + bsig1 e + ((e &&& f) ^^^ ((4294967295 - e) &&& g)) +
                     wget sha256K i + wget w i)
      let t2 := w32 (bsig0 a + ((a &&& b) ^^^ (a &&& c) ^^^ (b &&& c)))
      [w32 (t1 + t2), a, b, c, w32 (d + t1), e, f, g]
  | st => st

/-- Group a padded byte list into big-endian 32-bit words. -/
def bytesToWords : List Nat → List Nat
  | b1 :: b2 :: b3 :: b4 :: rest =>
      (b1 * 16777216 + b2 * 65536 + b3 * 256 + b4) :: bytesToWords rest
  | _ => []

/-- Split a word list into 16-word blocks (fuel-bounded). -/
def toBlocks : Nat → List Nat → List (List Nat)
  | 0, _ => []
  | _, [] => []
  | fuel + 1, l => l.take 16 :: toBlocks fuel (l.drop 16)

/-- SHA-256 padding: append `0x80`, zeros to 56 mod 64, and the 64-bit
big-endian bit length. -/
def sha256Pad (msg : List Nat) : List Nat :=
  let len := msg.length
  let bitLen := len * 8
  let zeros := (119 - len % 64) % 64
  msg ++ [128] ++ List.replicate zeros 0 ++
    [bitLen >>> 56 &&& 255, bitLen >>> 48 &&& 255, bitLen >>> 40 &&& 255,
     bitLen >>> 32 &&& 255, bitLen >>> 24 &&& 255, bitLen >>> 16 &&& 255,
     bitLen >>> 8 &&& 255, bitLen &&& 255]

/-- Process one block against the running hash state. -/
def sha256Block (h : List Nat) (block : List Nat) : List Nat :=
  let w := extendSchedule 48 block
  let st := (List.range 64).foldl (sha256Round w) h
  (h.zip st).map (fun p => w32 (p.1 + p.2))

/-- Full SHA-256 of a byte list, as the eight 32-bit hash words. -/
def sha256Words (msg : List Nat) : List Nat :=
  let padded := sha256Pad msg
  let blocks := toBlocks padded.length (bytesToWords padded)
  blocks.foldl sha256Block
    [1779033703, 3144134277, 1013904242, 2773480762,
     1359893119, 2600822924, 528734635, 1541459225]

/-- One lowercase hexadecimal digit. -/
def hexDigit (n : Nat) : Char :=
  if n < 10 then Char.ofNat (48 + n) else Char.ofNat (87 + n)

/-- Eight hex digits of a 32-bit word (big-endian nibbles). -/
def wordToHex (x : Nat) : List Char :=
  [hexDigit (x >>> 28 &&& 15), hexDigit (x >>> 24 &&& 15),
   hexDigit (x >>> 20 &&& 15), hexDigit (x >>> 16 &&& 15),
   hexDigit (x >>> 12 &&& 15), hexDigit (x >>> 8 &&& 15),
   hexDigit (x >>> 4 &&& 15), hexDigit (x &&& 15)]

/-- SHA-256 hex digest of a byte list (`hashlib.sha256(...).hexdigest()`). -/
def sha256Hex (msg : List Nat) : String :=
  ⟨((sha256Words msg).map wordToHex).flatten⟩

/-- UTF-8 encoding of one code point (`str.encode('utf-8')`, per char). -/
def utf8EncodeCharNat (c : Char) : List Nat :=
  let n := c.toNat
  if n < 128 then [n]
  else if n < 2048 then [192 ||| (n >>> 6), 128 ||| (n &&& 63)]
  else if n < 65536 then
    [224 ||| (n >>> 12), 128 ||| ((n >>> 6) &&& 63), 128 ||| (n &&& 63)]
  else
    [240 ||| (n >>> 18), 128 ||| ((n >>> 12) &&& 63),
     128 ||| ((n >>> 6) &&& 63), 128 ||| (n &&& 63)]

/-- UTF-8 encoding of a string as a byte list. -/
def utf8Encode (s : String) : List Nat :=
  s.data.foldr (fun c acc => utf8EncodeCharNat c ++ acc) []

/-! ## Cache Layer (`redis/redis_store.py`, class `RedisStore`)

The Redis connection is embedded as an explicit `RedisState`: `available`
models `self.client is not None` (an unreachable store), and the two key
families `file_hash:{path}` and `conversion:{path}` — disjoint keyspaces of
one string-keyed store — are carried as two association lists.  Wall-clock
timestamps stored alongside conversion outputs are outside the embedding. -/

/-- Association-list get (`client.get(key)`). -/
def kvGet {α : Type} (l : List (String × α)) (k : String) : Option α :=
  match l with
  | [] => none
  | (k', v) :: rest => if k' = k then some v else kvGet rest k

/-- Association-list set (`client.set(key, value)`). -/
def kvSet {α : Type} (l : List (String × α)) (k : String) (v : α) :
    List (String × α) :=
  match l with
  | [] => [(k, v)]
  | (k', v') :: rest =>
      if k' = k then (k', v) :: rest else (k', v') :: kvSet rest k v

/-- A cached conversion output (`conversion:{path}` value; the
`timestamp` field is wall-clock data outside the embedding). -/
structure ConversionData where
  go_code : String
  metadata : List (String × String)
deriving Repr, DecidableEq

/-- The embedded Redis store state. -/
structure RedisState where
  available : Bool
  fileHashes : List (String × String)
  conversions : List (String × ConversionData)
deriving Repr, DecidableEq

/-- `RedisStore.compute_file_hash`: SHA-256 hex digest of the UTF-8 encoded
content (the `file_path` argument is not used by the body). -/
def compute_file_hash (file_path : String) (content : String) : String :=
  sha256Hex (utf8Encode content)

/-- `RedisStore.file_changed`: `True` when the store is unreachable, when no
fingerprint is stored, or when the stored fingerprint differs from the
current content hash; stores the current hash in the latter two cases. -/
def file_changed (file_path content : String) (st : RedisState) :
    Bool × RedisState :=
  if !st.available then (true, st)
  else
    let current_hash := compute_file_hash file_path content
    match kvGet st.fileHashes file_path with
    | none =>
        (true, { st with fileHashes := kvSet st.fileHashes file_path current_hash })
    | some stored_hash =>
        if stored_hash ≠ current_hash then
          (true, { st with fileHashes := kvSet st.fileHashes file_path current_hash })
        else
          (false, st)

/-- `RedisStore.get_conversion_output`: `None` when unreachable, else the
cached conversion for the path. -/
def get_conversion_output (file_path : String) (st : RedisState) :
    Option ConversionData :=
  if !st.available then none
  else kvGet st.conversions file_path

/-- `RedisStore.store_conversion_output`: failure (and no state change)
when unreachable, else store the output and metadata under the path. -/
def store_conversion_output (file_path go_code : String)
    (metadata : List (String × String)) (st : RedisState) :
    Bool × RedisState :=
  if !st.available then (false, st)
  else
    (true, { st with
      conversions := kvSet st.conversions file_path ⟨go_code, metadata⟩ })

/-! ## File/Unit Chunker (`utils/file_chunker.py`, class `FileChunker`)

`ast.parse`, `_extract_module_context` and `_extract_definitions` belong to
the external parser (source parsing is out of the core's scope); they are
modelled as a `parse` oracle producing top-level definitions (with their
line spans, member methods and referenced names) plus the module context
string.  Source lines are carried without their trailing newline, and
Python's `''.join` of `keepends` lines is modelled by `joinLines`. -/

/-- Kind of a top-level (or member) Python definition. -/
inductive DefKind
  | function
  | cls
  | method
deriving Repr, DecidableEq

/-- The `'function' | 'class' | 'method'` tag the chunker stores. -/
def DefKind.str : DefKind → String
  | .function => "function"
  | .cls => "class"
  | .method => "method"

/-- A definition record as `_extract_definitions` produces it:
name, 1-based line span, member methods (for classes), and the names
referenced inside the definition (`ast.Name` occurrences). -/
structure PyDef where
  kind : DefKind
  name : String
  start_line : Nat
  end_line : Nat
  methods : List PyDef
  refs : List String
deriving Repr

/-- Line count of a definition (`end_line - start_line + 1`). -/
def defSpan (d : PyDef) : Nat := d.end_line - d.start_line + 1

/-- A chunk of code to be converted (`CodeChunk` dataclass). -/
structure CodeChunk where
  chunk_id : Nat
  start_line : Nat
  end_line : Nat
  code : String
  chunk_type : String
  name : String
  dependencies : List String
  context : String
deriving Repr, DecidableEq

/-- `lines[start-1:end]` (1-based, inclusive `end` as in the source). -/
def sliceLines (lines : List String) (startLine endLine : Nat) : List String :=
  (lines.drop (startLine - 1)).take (endLine - (startLine - 1))

/-- Join source lines back into code (models `''.join` of keepends lines). -/
def joinLines (l : List String) : String := String.intercalate "\n" l

/-- `str.splitlines()` for newline-separated text: split on `\n`, without
a trailing empty line for newline-terminated input. -/
def pySplitlines (s : String) : List String :=
  if s = "" then []
  else
    let parts := splitOnChar '\n' s
    if parts.getLast? = some "" then parts.dropLast else parts

/-- Minimum `start_line` of a non-empty definition list. -/
def minStart : List PyDef → Nat
  | [] => 0
  | d :: rest => rest.foldl (fun (a : Nat) (x : PyDef) => Nat.min a x.start_line) d.start_line

/-- Maximum `end_line` of a non-empty definition list. -/
def maxEnd : List PyDef → Nat
  | [] => 0
  | d :: rest => rest.foldl (fun (a : Nat) (x : PyDef) => Nat.max a x.end_line) d.end_line

/-- `FileChunker._create_chunk`: one chunk spanning a group of definitions;
`dependencies` is the deduplicated union of the referenced names. -/
def create_chunk (chunk_id : Nat) (definitions : List PyDef)
    (lines : List String) (context : String) : CodeChunk :=
  let start_line := minStart definitions
  let end_line := maxEnd definitions
  let code := joinLines (sliceLines lines start_line end_line)
  let (chunk_type, name) :=
    match definitions with
    | [d] => (d.kind.str, d.name)
    | ds =>
        let names := ds.map (fun (x : PyDef) => x.name)
        ("multiple",
         String.intercalate ", " (names.take 3) ++
           (if names.length > 3 then "..." else ""))
  let dependencies :=
    (definitions.foldl (fun (acc : List String) (d : PyDef) => acc ++ d.refs) []).foldl insertNew []
  ⟨chunk_id, start_line, end_line, code, chunk_type, name, dependencies, context⟩

/-- The method-grouping loop of `_split_large_definition` for classes:
greedily group consecutive methods until the next would exceed the
threshold. -/
def methodLoop (maxLines : Nat) (lines : List String) (ctx : String) :
    List PyDef → Nat → List PyDef → Nat → List CodeChunk
  | [], chunkId, cur, _ =>
      if cur.isEmpty then [] else [create_chunk chunkId cur lines ctx]
  | m :: rest, chunkId, cur, curLines =>
      let ml := defSpan m
      if curLines + ml > maxLines && !cur.isEmpty then
        create_chunk chunkId cur lines ctx ::
          methodLoop maxLines lines ctx rest (chunkId + 1) [m] ml
      else
        methodLoop maxLines lines ctx rest chunkId (cur ++ [m]) (curLines + ml)

/-- `FileChunker._split_large_definition`: split an oversized class by its
methods (carrying the class header as extra context); emit an oversized
function as one unchunked chunk. -/
def split_large_definition (maxLines : Nat) (d : PyDef) (lines : List String)
    (context : String) (start_chunk_id : Nat) : List CodeChunk :=
  match d.kind with
  | .cls =>
      match d.methods with
      | [] => []
      | m0 :: _ =>
          let methods := d.methods.map (fun m => { m with kind := .method })
          let class_header := joinLines (sliceLines lines d.start_line (m0.start_line - 1))
          let enhanced_context := context ++ "\n\n" ++ class_header
          methodLoop maxLines lines enhanced_context methods start_chunk_id [] 0
  | _ =>
      [⟨start_chunk_id, d.start_line, d.end_line,
        joinLines (sliceLines lines d.start_line d.end_line),
        d.kind.str, d.name, [], context⟩]

/-- The top-level grouping loop of `FileChunker.chunk_file`: walk
definitions in order, splitting oversized ones and greedily grouping the
rest until the threshold would be exceeded. -/
def chunkLoop (maxLines : Nat) (lines : List String) (ctx : String) :
    List PyDef → Nat → List PyDef → Nat → List CodeChunk
  | [], chunkId, cur, _ =>
      if cur.isEmpty then [] else [create_chunk chunkId cur lines ctx]
  | d :: rest, chunkId, cur, curLines =>
      let dl := defSpan d
      if dl > maxLines then
        let flushed :=
          if cur.isEmpty then [] else [create_chunk chunkId cur lines ctx]
        let chunkId1 := chunkId + flushed.length
        let sub := split_large_definition maxLines d lines ctx chunkId1
        flushed ++ sub ++
          chunkLoop maxLines lines ctx rest (chunkId1 + sub.length) [] 0
      else if curLines + dl > maxLines && !cur.isEmpty then
        create_chunk chunkId cur lines ctx ::
          chunkLoop maxLines lines ctx rest (chunkId + 1) [d] dl
      else
        chunkLoop maxLines lines ctx rest chunkId (cur ++ [d]) (curLines + dl)

/-- `FileChunker.chunk_file`: parse (via the external `parse` oracle; a
syntax error yields no chunks), then group top-level definitions.
`maxLines` is `self.max_chunk_lines` (500 by default). -/
def chunk_file (maxLines : Nat)
    (parse : String → Option (List PyDef × String))
    (file_path code : String) : List CodeChunk :=
  match parse code with
  | none => []
  | some (definitions, module_context) =>
      chunkLoop maxLines (pySplitlines code) module_context definitions 0 [] 0

/-- `FileChunker.should_chunk_file`: the scanner-reported line count
exceeds the threshold. -/
def should_chunk_file (maxLines : Nat) (fiLines : Nat) : Bool :=
  fiLines > maxLines

/-- A per-chunk conversion result, as `_convert_with_chunks` builds them
(`{'chunk_id': ..., 'go_code': ..., 'name': ...}`). -/
structure ChunkResult where
  chunk_id : Nat
  go_code : String
  name : String
deriving Repr, DecidableEq, Inhabited

/-- The header scan of `reassemble_chunks` over the first chunk's lines:
collect `package` lines and import-ish lines, skip blank/comment lines,
and stop at the first code line. -/
def headerScan : List String → List String × List String
  | [] => ([], [])
  | line :: rest =>
      if strStartsWith line "package " then
        let (p, i) := headerScan rest
        (line :: p, i)
      else if strStartsWith line "import " || strStartsWith (pyStrip line) "\"" then
        let (p, i) := headerScan rest
        (p, line :: i)
      else if pyStrip line = "" || strStartsWith (pyStrip line) "//" then
        headerScan rest
      else ([], [])

/-- The body scan of `reassemble_chunks` over one chunk's lines: while in
the leading header region, drop package/import lines and blank/comment
lines; from the first real code line on, keep every line. -/
def bodyScan : Bool → List String → List String
  | _, [] => []
  | true, line :: rest =>
      if strStartsWith line "package " || strStartsWith line "import " then
        bodyScan true rest
      else if pyStrip line ≠ "" && !(strStartsWith (pyStrip line) "//") then
        line :: bodyScan false rest
      else
        bodyScan true rest
  | false, line :: rest => line :: bodyScan false rest

/-- `FileChunker.reassemble_chunks`: take package/import lines from the
first chunk's leading region as the header, strip each chunk's leading
header region, and join the non-empty bodies (and header blocks) with
blank-line separators. -/
def reassemble_chunks (chunk_results : List ChunkResult) : String :=
  if chunk_results.isEmpty then ""
  else
    let first_go_code := (chunk_results.headD default).go_code
    let (package_lines, import_lines) := headerScan (pySplitlines first_go_code)
    let parts :=
      (if package_lines.isEmpty then []
       else [String.intercalate "\n" package_lines, ""]) ++
      (if import_lines.isEmpty then []
       else [String.intercalate "\n" import_lines, ""]) ++
      (chunk_results.foldr
        (fun r acc =>
          let code_lines := bodyScan true (pySplitlines r.go_code)
          (if code_lines.isEmpty then []
           else [String.intercalate "\n" code_lines, ""]) ++ acc)
        [])
    String.intercalate "\n" parts

/-! ## Translation calls and the worker (`converter/ai_converter.py`,
`utils/worker_pool.py`)

The translation engine (HTTP call, streaming parse, markdown extraction)
and prompt construction are external per the specification; they appear as
oracles `translate : String → Option String` (`none` models the caught
request/parse exception) and prompt builders.  Wall-clock timing
(`elapsed_time`) is real time and is outside the embedding. -/

/-- Scanner file record as the worker reads it (`file_info` dict keys
`path`, `name`, `lines`; `content` models what `open(path).read()`
returns). -/
structure FileInfo where
  path : String
  name : String
  content : String
  lines : Nat
deriving Repr, DecidableEq

/-- `WorkItem` dataclass (the `context` dict is an opaque token here). -/
structure WorkItem where
  file_info : FileInfo
  context : String
  level : Nat
  use_fast_model : Bool
deriving Repr, DecidableEq

/-- `WorkResult` dataclass (without the wall-clock `elapsed_time`). -/
structure WorkResult where
  file_path : String
  go_code : Option String
  success : Bool
  error : Option String
  cached : Bool
  model_used : String
deriving Repr, DecidableEq

/-- Python truthiness of the optional `go_code` string
(`if ... and go_code:`). -/
def goTruthy : Option String → Bool
  | some s => s ≠ ""
  | none => false

/-- `AIConverter._convert_file_with_model` (the worker-pool conversion
path): read the file, build the conversion prompt, call the engine once on
the whole unit — there is no size check and no chunking on this path; a
raised/caught error yields `None`. -/
def convert_file_with_model (translate : String → Option String)
    (buildPrompt : String → FileInfo → String → String)
    (fi : FileInfo) (context : String) (use_fast_model : Bool) :
    Option String :=
  translate (buildPrompt fi.content fi context)

/-- `AIConverter._convert_with_chunks`: split the unit, convert each chunk
(a failing chunk is replaced by the `// TODO: Chunk conversion failed`
placeholder), and reassemble; with no chunks, fall back to the standard
conversion (`fallback`). -/
def convert_with_chunks (maxLines : Nat)
    (parse : String → Option (List PyDef × String))
    (translate : String → Option String)
    (buildChunkPrompt : CodeChunk → String)
    (fallback : String)
    (python_code : String) (fi_path : String) : String :=
  let chunks := chunk_file maxLines parse fi_path python_code
  if chunks.isEmpty then fallback
  else
    let chunk_results := chunks.map (fun c =>
      match translate (buildChunkPrompt c) with
      | some go_code => ChunkResult.mk c.chunk_id go_code c.name
      | none =>
          ChunkResult.mk c.chunk_id
            ("// TODO: Chunk conversion failed for " ++ c.name ++ "\n") c.name)
    reassemble_chunks chunk_results

/-- `ConversionWorker._process_work_item`: consult the cache (fingerprint
check, then cached output) and return a cache-hit result on success;
otherwise convert via `_convert_file_with_model`, store the output on
success, and emit the `WorkResult`.  `goModule` models
`_determine_go_module`. -/
def process_work_item (translate : String → Option String)
    (buildPrompt : String → FileInfo → String → String)
    (goModule : String → String)
    (item : WorkItem) (st : RedisState) : WorkResult × RedisState :=
  let fi := item.file_info
  let content := fi.content
  let convertPhase : RedisState → WorkResult × RedisState := fun st1 =>
    let model_used := if item.use_fast_model then "fast" else "smart"
    let go_code :=
      convert_file_with_model translate buildPrompt fi item.context
        item.use_fast_model
    let st2 :=
      if st1.available && goTruthy go_code then
        (store_conversion_output fi.path (go_code.getD "")
          [("module", goModule fi.name), ("model", model_used)] st1).2
      else st1
    (⟨fi.path, go_code, true, none, false, model_used⟩, st2)
  if st.available then
    let fc := file_changed fi.path content st
    if fc.1 = false then
      match get_conversion_output fi.path fc.2 with
      | some cached_result =>
          (⟨fi.path, some cached_result.go_code, true, none, true, "cache"⟩,
           fc.2)
      | none => convertPhase fc.2
    else convertPhase fc.2
  else convertPhase st

/-! ## Spec-side reassembly functions (for the refinement statement of the
reassembly algorithm) -/

/-- A `package` declaration line. -/
def pkgLine (line : String) : Bool := strStartsWith line "package "

/-- An import-region line (`import ...` or a quoted import member). -/
def importishLine (line : String) : Bool :=
  strStartsWith line "import " || strStartsWith (pyStrip line) "\""

/-- A blank or `//`-comment line. -/
def blankOrComment (line : String) : Bool :=
  pyStrip line = "" || strStartsWith (pyStrip line) "//"

/-- A line of the leading header region of an engine output. -/
def headerRegionLine (line : String) : Bool :=
  pkgLine line || importishLine line || blankOrComment line

/-- A line the body scan skips while still inside the leading header
region. -/
def bodySkipLine (line : String) : Bool :=
  strStartsWith line "package " || strStartsWith line "import " ||
    pyStrip line = "" || strStartsWith (pyStrip line) "//"

/-- Spec-side header of the final output: the package lines, then the
(if-chain precedence) import lines, taken from the first chunk's leading
header region, each block followed by a blank separator. -/
def specHeaderParts (go : String) : List String :=
  let hdr := (pySplitlines go).takeWhile headerRegionLine
  let pkg := hdr.filter pkgLine
  let imp := hdr.filter (fun l => !pkgLine l && importishLine l)
  (if pkg.isEmpty then [] else [String.intercalate "\n" pkg, ""]) ++
    (if imp.isEmpty then [] else [String.intercalate "\n" imp, ""])

/-- Spec-side body of one chunk's output: everything after the leading
package/import/blank/comment region. -/
def specBody (go : String) : List String :=
  (pySplitlines go).dropWhile bodySkipLine

/-- Spec-side contribution of one chunk to the final output. -/
def specBodyParts (go : String) : List String :=
  let b := specBody go
  if b.isEmpty then [] else [String.intercalate "\n" b, ""]

/-! ## Level-structure predicate for the scheduler proofs -/

/-- `okLevels dep placed levels`: reading `levels` left to right, every
unit's dependencies were already placed before its level. -/
def okLevels (dep : List (String × List String)) :
    List String → List (List String) → Prop
  | _, [] => True
  | placed, L :: rest =>
      (∀ u ∈ L, ∀ d ∈ lookupDeps dep u, d ∈ placed) ∧
        okLevels dep (placed ++ L) rest

/-! ## Concrete fixtures used by witnesses and counterexamples -/

/-- A translation-engine oracle that always succeeds, tagging its input. -/
def sampleTranslate : String → Option String := fun s => some ("T:" ++ s)

/-- A conversion-prompt builder tagging the unit content. -/
def samplePrompt : String → FileInfo → String → String :=
  fun content _ _ => "P:" ++ content

/-- A chunk-prompt builder tagging the chunk code. -/
def sampleChunkPrompt : CodeChunk → String := fun c => "C:" ++ c.code

/-- A constant `_determine_go_module` oracle. -/
def sampleGoModule : String → String := fun _ => "mod"

/-- An oversized unit (601 scanner-reported lines, above the 500-line
chunk threshold) holding two small top-level functions. -/
def bigFileInfo : FileInfo :=
  ⟨"big.py", "big.py", "def a():\n x = 1\ndef b():\n y = 2", 601⟩

/-- A work item for `bigFileInfo` on the fast tier. -/
def bigItem : WorkItem := ⟨bigFileInfo, "ctx", 0, true⟩

/-- External-parser oracle for `bigFileInfo.content`: two top-level
two-line functions, no module context. -/
def bigParse : String → Option (List PyDef × String) := fun _ =>
  some ([⟨.function, "a", 1, 2, [], []⟩, ⟨.function, "b", 3, 4, [], []⟩], "")

/-- A reachable, empty cache store. -/
def emptyStore : RedisState := ⟨true, [], []⟩

/-- Four one-line top-level functions (for the chunk-failure scenario). -/
def quadParse : String → Option (List PyDef × String) := fun _ =>
  some ([⟨.function, "g1", 1, 1, [], []⟩, ⟨.function, "g2", 2, 2, [], []⟩,
         ⟨.function, "g3", 3, 3, [], []⟩, ⟨.function, "g4", 4, 4, [], []⟩], "")

/-- An engine oracle failing exactly on the chunk holding `l2`. -/
def failG2Translate : String → Option String := fun s =>
  if s = "C:l2" then none else some ("T:" ++ s)

/-! ## Supporting lemmas -/

/-- Membership after `insertNew`. -/
theorem mem_insertNew {l : List String} {x y : String} :
    y ∈ insertNew l x ↔ y ∈ l ∨ y = x := by
  unfold insertNew
  by_cases h : x ∈ l
  · simp only [if_pos h]
    constructor
    · exact Or.inl
    · rintro (h' | rfl)
      · exact h'
      · exact h
  · simp [if_neg h]

/-- `insertNew` preserves duplicate-freedom. -/
theorem nodup_insertNew {l : List String} (h : l.Nodup) (x : String) :
    (insertNew l x).Nodup := by
  unfold insertNew
  by_cases hx : x ∈ l
  · simpa [hx]
  · rw [if_neg hx]
    refine List.Nodup.append h (List.nodup_singleton x) ?_
    intro a ha hb
    simp only [List.mem_singleton] at hb
    exact hx (hb ▸ ha)

/-- Reading back the key just written. -/
theorem kvGet_kvSet_same {α : Type} (l : List (String × α)) (k : String) (v : α) :
    kvGet (kvSet l k v) k = some v := by
  induction l with
  | nil => simp [kvSet, kvGet]
  | cons hd tl ih =>
      obtain ⟨k', v'⟩ := hd
      by_cases h : k' = k
      · simp [kvSet, kvGet, h]
      · simp [kvSet, kvGet, h, ih]

/-- `file_changed` never touches the `available` flag. -/
theorem file_changed_available (p c : String) (st : RedisState) :
    (file_changed p c st).2.available = st.available := by
  unfold file_changed
  by_cases h : st.available
  · simp only [h]
    cases kvGet st.fileHashes p with
    | none => simp
    | some stored => by_cases hs : stored ≠ compute_file_hash p c <;> simp [hs, h]
  · simp [Bool.not_eq_true] at h
    simp [h]

/-! ### Scheduler: basic membership and length lemmas -/

/-- Membership in the eligibility filter. -/
theorem mem_eligibleFiles {A : List String}
    {dep : List (String × List String)} {P : List String} {x : String} :
    x ∈ eligibleFiles A dep P ↔
      x ∈ A ∧ x ∉ P ∧ ∀ d ∈ lookupDeps dep x, d ∈ P := by
  simp [eligibleFiles, List.mem_filter, and_assoc]

/-- Membership of the remaining files. -/
theorem mem_remainingFiles {A P : List String} {x : String} :
    x ∈ remainingFiles A P ↔ x ∈ A ∧ x ∉ P := by
  simp [remainingFiles, List.mem_filter]

/-- A duplicate-free list avoiding an element of `A` but contained in `A`
is strictly shorter than `A`. -/
theorem length_lt_of_missing {A P : List String}
    (hP : P.Nodup) (hsub : ∀ x ∈ P, x ∈ A) {u : String}
    (hu : u ∈ A) (hnu : u ∉ P) : P.length < A.length := by
  have hn : (u :: P).Nodup := List.nodup_cons.mpr ⟨hnu, hP⟩
  have hs : (u :: P) ⊆ A := by
    intro x hx
    rcases List.mem_cons.mp hx with rfl | hx
    · exact hu
    · exact hsub x hx
  have := (List.subperm_of_subset hn hs).length_le
  simpa using this

/-- A duplicate-free list contained (as a set) in `P` is no longer. -/
theorem length_le_of_subset_nodup {A P : List String} (hA : A.Nodup)
    (hsup : ∀ x ∈ A, x ∈ P) : A.length ≤ P.length :=
  (List.subperm_of_subset hA hsup).length_le

/-! ### Scheduler: scan-loop invariants -/

/-- The inner scan loop preserves duplicate-freedom of `all_files`. -/
theorem scanDeps_nodup (filtering : Bool) (actual : List String) (k : String) :
    ∀ (ds : List String) (acc2 : List String × List (String × List String)),
      acc2.1.Nodup → (ds.foldl (scanDepStep filtering actual k) acc2).1.Nodup := by
  intro ds
  induction ds with
  | nil => intro acc2 h; exact h
  | cons d rest ih =>
      intro acc2 h
      refine ih _ ?_
      unfold scanDepStep
      by_cases hc : (!filtering || d ∈ actual : Bool) = true
      · simpa [hc] using nodup_insertNew h d
      · simpa [hc] using h

/-- The scan step preserves duplicate-freedom of `all_files`. -/
theorem scanStep_nodup (filtering : Bool) (actual : List String)
    (acc : List String × List (String × List String))
    (entry : String × List String) (h : acc.1.Nodup) :
    (scanStep filtering actual acc entry).1.Nodup := by
  unfold scanStep
  by_cases hc : (!filtering || entry.1 ∈ actual : Bool) = true
  · simp only [hc, if_true]
    exact scanDeps_nodup filtering actual entry.1 entry.2 _
      (nodup_insertNew h entry.1)
  · simp only [Bool.not_eq_true] at hc
    simp [hc, h]

/-- `all_files` is duplicate-free. -/
theorem scanGraph_nodup (filtering : Bool) (actual : List String)
    (fd : List (String × List String)) :
    (scanGraph filtering actual fd).1.Nodup := by
  unfold scanGraph
  generalize hacc : (([], []) :
    List String × List (String × List String)) = acc
  have hn : acc.1.Nodup := by rw [← hacc]; exact List.nodup_nil
  clear hacc
  induction fd generalizing acc with
  | nil => exact hn
  | cons e rest ih => exact ih _ (scanStep_nodup filtering actual acc e hn)

/-- With the scanned-files filter active, the inner scan loop only adds
scanned aliases to `all_files`. -/
theorem scanDeps_subset_actual (actual : List String) (k : String) :
    ∀ (ds : List String) (acc2 : List String × List (String × List String)),
      (∀ x ∈ acc2.1, x ∈ actual) →
      ∀ x ∈ (ds.foldl (scanDepStep true actual k) acc2).1, x ∈ actual := by
  intro ds
  induction ds with
  | nil => intro acc2 h; exact h
  | cons d rest ih =>
      intro acc2 h
      refine ih _ ?_
      intro x hx
      unfold scanDepStep at hx
      by_cases hc : d ∈ actual
      · simp only [hc, Bool.not_true, Bool.false_or, decide_eq_true_eq,
          if_true, decide_eq_true (p := d ∈ actual) hc] at hx
        rcases mem_insertNew.mp hx with hx | rfl
        · exact h x hx
        · exact hc
      · simp [hc] at hx
        exact h x hx

/-- With the scanned-files filter active, `all_files` contains only
scanned aliases. -/
theorem scanGraph_subset_actual (actual : List String)
    (fd : List (String × List String)) :
    ∀ x ∈ (scanGraph true actual fd).1, x ∈ actual := by
  unfold scanGraph
  generalize hacc : (([], []) :
    List String × List (String × List String)) = acc
  have hn : ∀ x ∈ acc.1, x ∈ actual := by
    rw [← hacc]; intro x hx; exact absurd hx (List.not_mem_nil x)
  clear hacc
  induction fd generalizing acc with
  | nil => exact hn
  | cons e rest ih =>
      refine ih _ ?_
      intro x hx
      unfold scanStep at hx
      by_cases hc : e.1 ∈ actual
      · simp only [hc, Bool.not_true, Bool.false_or, decide_eq_true_eq,
          if_true, decide_eq_true (p := e.1 ∈ actual) hc] at hx
        refine scanDeps_subset_actual actual e.1 e.2 _ ?_ x hx
        intro y hy
        rcases mem_insertNew.mp hy with hy | rfl
        · exact hn y hy
        · exact hc
      · simp [hc] at hx
        exact hn x hx

/-- Anything inserted by folding `insertNew` stays. -/
theorem mem_foldl_insertNew_of_mem_acc {acc : List String} {x : String}
    (l : List String) (h : x ∈ acc) : x ∈ l.foldl insertNew acc := by
  induction l generalizing acc with
  | nil => exact h
  | cons a rest ih => exact ih (mem_insertNew.mpr (Or.inl h))

/-- Folding `insertNew` over a list collects all its elements. -/
theorem mem_foldl_insertNew_of_mem {acc l : List String} {x : String}
    (h : x ∈ l) : x ∈ l.foldl insertNew acc := by
  induction l generalizing acc with
  | nil => exact absurd h (List.not_mem_nil x)
  | cons a rest ih =>
      rcases List.mem_cons.mp h with rfl | h
      · exact mem_foldl_insertNew_of_mem_acc rest
          (mem_insertNew.mpr (Or.inr rfl))
      · exact ih h

/-- Membership in the accumulator survives the whole alias fold. -/
theorem mem_scanFold_acc {x : String} :
    ∀ (s : List ScannedFile) (acc : List String), x ∈ acc →
      x ∈ s.foldl (fun acc f => (aliasesOf f).foldl insertNew acc) acc := by
  intro s
  induction s with
  | nil => intro acc h; exact h
  | cons g rest ih =>
      intro acc h
      exact ih _ (mem_foldl_insertNew_of_mem_acc _ h)

/-- Every alias of every scanned file is in `actual_files`. -/
theorem mem_actualFiles {s : List ScannedFile} {f : ScannedFile}
    (hf : f ∈ s) : ∀ a ∈ aliasesOf f, a ∈ actualFiles s := by
  unfold actualFiles
  generalize hacc : ([] : List String) = acc
  clear hacc
  induction s generalizing acc with
  | nil => exact absurd hf (List.not_mem_nil f)
  | cons g rest ih =>
      rcases List.mem_cons.mp hf with rfl | hf
      · intro a ha
        simp only [List.foldl_cons]
        exact mem_scanFold_acc rest _ (mem_foldl_insertNew_of_mem ha)
      · intro a ha
        simp only [List.foldl_cons]
        exact ih hf _ a ha

/-! ### Scheduler: loop lemmas -/

/-- Everything the loop places comes from `all_files`. -/
theorem levelsLoop_mem (A : List String) (dep : List (String × List String)) :
    ∀ (fuel : Nat) (P : List String) (x : String),
      x ∈ (levelsLoop A dep fuel P).flatten → x ∈ A := by
  intro fuel
  induction fuel with
  | zero => intro P x hx; simp [levelsLoop] at hx
  | succ fuel ih =>
      intro P x hx
      unfold levelsLoop at hx
      by_cases hguard : P.length < A.length
      · rw [if_pos hguard] at hx
        simp only [List.flatten_cons, List.mem_append] at hx
        rcases hx with hx | hx
        · by_cases hemp : (eligibleFiles A dep P).isEmpty
          · simp only [hemp, if_true] at hx
            exact (mem_remainingFiles.mp hx).1
          · simp only [hemp, if_false] at hx
            exact (mem_eligibleFiles.mp hx).1
        · exact ih _ x hx
      · rw [if_neg hguard] at hx
        simp at hx

/-- With enough fuel (`|all_files|` suffices), every not-yet-processed
file ends up in some level: the loop terminates having placed
everything. -/
theorem levelsLoop_covers (A : List String)
    (dep : List (String × List String)) :
    ∀ (fuel : Nat) (P : List String), A.Nodup → P.Nodup →
      (∀ x ∈ P, x ∈ A) → A.length - P.length ≤ fuel →
      ∀ u ∈ A, u ∉ P → u ∈ (levelsLoop A dep fuel P).flatten := by
  intro fuel
  induction fuel with
  | zero =>
      intro P _ hP hsub hfuel u hu hnu
      have := length_lt_of_missing hP hsub hu hnu
      omega
  | succ fuel ih =>
      intro P hA hP hsub hfuel u hu hnu
      have hguard : P.length < A.length := length_lt_of_missing hP hsub hu hnu
      unfold levelsLoop
      rw [if_pos hguard]
      simp only [List.flatten_cons, List.mem_append]
      by_cases hemp : (eligibleFiles A dep P).isEmpty
      · left
        simp only [hemp, if_true]
        exact mem_remainingFiles.mpr ⟨hu, hnu⟩
      · simp only [hemp, if_false]
        by_cases hmem : u ∈ eligibleFiles A dep P
        · exact Or.inl hmem
        · right
          have helne : eligibleFiles A dep P ≠ [] := by
            intro h; rw [h] at hemp; exact hemp rfl
          have helnodup : (eligibleFiles A dep P).Nodup := hA.filter _
          have hdisj : ∀ a ∈ P, a ∉ eligibleFiles A dep P := by
            intro a ha hael
            exact (mem_eligibleFiles.mp hael).2.1 ha
          refine ih (P ++ eligibleFiles A dep P) hA
            (List.Nodup.append hP helnodup ?_) ?_ ?_ u hu ?_
          · intro a ha; exact hdisj a ha
          · intro x hx
            rcases List.mem_append.mp hx with hx | hx
            · exact hsub x hx
            · exact (mem_eligibleFiles.mp hx).1
          · have : 0 < (eligibleFiles A dep P).length :=
              List.length_pos.mpr helne
            simp only [List.length_append]
            omega
          · intro hmem2
            rcases List.mem_append.mp hmem2 with h | h
            · exact hnu h
            · exact hmem h

/-- When nothing is eligible but files remain, the loop emits exactly one
final level holding all remaining files, and stops. -/
theorem levelsLoop_fallback (A : List String)
    (dep : List (String × List String)) (P : List String) (fuel : Nat)
    (hA : A.Nodup) (hguard : P.length < A.length)
    (hempty : eligibleFiles A dep P = []) :
    levelsLoop A dep (fuel + 1) P = [remainingFiles A P] := by
  unfold levelsLoop
  rw [if_pos hguard]
  have hemp : (eligibleFiles A dep P).isEmpty = true := by
    rw [hempty]; rfl
  simp only [hemp, if_true]
  have hrest : levelsLoop A dep fuel (P ++ remainingFiles A P) = [] := by
    cases fuel with
    | zero => rfl
    | succ f =>
        unfold levelsLoop
        rw [if_neg ?_]
        have hsup : ∀ x ∈ A, x ∈ P ++ remainingFiles A P := by
          intro x hx
          by_cases hxP : x ∈ P
          · exact List.mem_append.mpr (Or.inl hxP)
          · exact List.mem_append.mpr
              (Or.inr (mem_remainingFiles.mpr ⟨hx, hxP⟩))
        have := length_le_of_subset_nodup hA hsup
        omega
  rw [hrest]

/-- A non-empty list of strings has an element of minimal rank. -/
theorem exists_rank_min (f : String → Nat) :
    ∀ (l : List String), l ≠ [] → ∃ a ∈ l, ∀ b ∈ l, f a ≤ f b := by
  intro l
  induction l with
  | nil => intro h; exact absurd rfl h
  | cons x xs ih =>
      intro _
      by_cases hxs : xs = []
      · subst hxs
        refine ⟨x, List.mem_cons_self x [], ?_⟩
        intro b hb
        rcases List.mem_cons.mp hb with rfl | hb
        · exact Nat.le_refl _
        · exact absurd hb (List.not_mem_nil b)
      · obtain ⟨a, ha, hmin⟩ := ih hxs
        by_cases hfx : f x ≤ f a
        · refine ⟨x, List.mem_cons_self x xs, ?_⟩
          intro b hb
          rcases List.mem_cons.mp hb with rfl | hb
          · exact Nat.le_refl _
          · exact Nat.le_trans hfx (hmin b hb)
        · refine ⟨a, List.mem_cons_of_mem x ha, ?_⟩
          intro b hb
          rcases List.mem_cons.mp hb with rfl | hb
          · exact Nat.le_of_lt (Nat.lt_of_not_le hfx)
          · exact hmin b hb

/-- With a dependency ranking (no cycles) and all dependencies scheduled,
some remaining file is always eligible. -/
theorem eligible_nonempty_of_acyclic (A : List String)
    (dep : List (String × List String)) (P : List String)
    (rank : String → Nat)
    (hdeps : ∀ u ∈ A, ∀ d ∈ lookupDeps dep u, d ∈ A)
    (hrank : ∀ u ∈ A, ∀ d ∈ lookupDeps dep u, rank d < rank u)
    (hrem : remainingFiles A P ≠ []) :
    eligibleFiles A dep P ≠ [] := by
  obtain ⟨a, haR, hmin⟩ := exists_rank_min rank _ hrem
  obtain ⟨haA, haP⟩ := mem_remainingFiles.mp haR
  have hmem : a ∈ eligibleFiles A dep P := by
    refine mem_eligibleFiles.mpr ⟨haA, haP, ?_⟩
    intro d hd
    by_contra hdP
    have hdA : d ∈ A := hdeps a haA d hd
    have hdR : d ∈ remainingFiles A P := mem_remainingFiles.mpr ⟨hdA, hdP⟩
    have h1 := hmin d hdR
    have h2 := hrank a haA d hd
    omega
  intro h
  rw [h] at hmem
  exact (List.not_mem_nil a) hmem

/-- On an acyclic, dependency-closed graph the loop only ever emits
eligible levels: the output is stratified (each unit's dependencies
already placed), duplicate-free, and drawn from the unprocessed part of
`all_files`. -/
theorem levelsLoop_stratified (A : List String)
    (dep : List (String × List String)) (rank : String → Nat)
    (hdeps : ∀ u ∈ A, ∀ d ∈ lookupDeps dep u, d ∈ A)
    (hrank : ∀ u ∈ A, ∀ d ∈ lookupDeps dep u, rank d < rank u) :
    ∀ (fuel : Nat) (P : List String), A.Nodup → P.Nodup →
      (∀ x ∈ P, x ∈ A) →
      okLevels dep P (levelsLoop A dep fuel P) ∧
      (levelsLoop A dep fuel P).flatten.Nodup ∧
      (∀ x ∈ (levelsLoop A dep fuel P).flatten, x ∈ A ∧ x ∉ P) := by
  intro fuel
  induction fuel with
  | zero =>
      intro P _ _ _
      simp [levelsLoop, okLevels]
  | succ fuel ih =>
      intro P hA hP hsub
      by_cases hguard : P.length < A.length
      · have hrem : remainingFiles A P ≠ [] := by
          intro hre
          have hsup : ∀ x ∈ A, x ∈ P := by
            intro x hx
            by_contra hxP
            have : x ∈ remainingFiles A P := mem_remainingFiles.mpr ⟨hx, hxP⟩
            rw [hre] at this
            exact (List.not_mem_nil x) this
          have := length_le_of_subset_nodup hA hsup
          omega
        have hel : eligibleFiles A dep P ≠ [] :=
          eligible_nonempty_of_acyclic A dep P rank hdeps hrank hrem
        have helE : (eligibleFiles A dep P).isEmpty = false := by
          cases h : eligibleFiles A dep P with
          | nil => exact absurd h hel
          | cons a as => rfl
        have helnodup : (eligibleFiles A dep P).Nodup := hA.filter _
        have hPe : (P ++ eligibleFiles A dep P).Nodup := by
          refine List.Nodup.append hP helnodup ?_
          intro a ha hael
          exact (mem_eligibleFiles.mp hael).2.1 ha
        have hsube : ∀ x ∈ P ++ eligibleFiles A dep P, x ∈ A := by
          intro x hx
          rcases List.mem_append.mp hx with hx | hx
          · exact hsub x hx
          · exact (mem_eligibleFiles.mp hx).1
        obtain ⟨ihOk, ihNd, ihMem⟩ := ih (P ++ eligibleFiles A dep P) hA hPe hsube
        unfold levelsLoop
        rw [if_pos hguard]
        simp only [helE, Bool.false_eq_true, if_false]
        refine ⟨⟨?_, ihOk⟩, ?_, ?_⟩
        · intro u hu d hd
          exact (mem_eligibleFiles.mp hu).2.2 d hd
        · simp only [List.flatten_cons]
          refine List.Nodup.append helnodup ihNd ?_
          intro a ha hafl
          exact (ihMem a hafl).2 (List.mem_append.mpr (Or.inr ha))
        · intro x hx
          simp only [List.flatten_cons, List.mem_append] at hx
          rcases hx with hx | hx
          · exact ⟨(mem_eligibleFiles.mp hx).1, (mem_eligibleFiles.mp hx).2.1⟩
          · refine ⟨(ihMem x hx).1, ?_⟩
            intro hxP
            exact (ihMem x hx).2 (List.mem_append.mpr (Or.inl hxP))
      · unfold levelsLoop
        rw [if_neg hguard]
        simp [okLevels]

/-! ### Level indexing lemmas -/

/-- An element of the `i`-th level is in the flattened levels. -/
theorem mem_getD_flatten {levels : List (List String)} {i : Nat} {u : String}
    (h : u ∈ levels.getD i []) : u ∈ levels.flatten := by
  induction levels generalizing i with
  | nil => simp at h
  | cons L rest ih =>
      cases i with
      | zero =>
          simp only [List.getD_cons_zero] at h
          exact List.mem_flatten.mpr ⟨L, List.mem_cons_self L rest, h⟩
      | succ i' =>
          simp only [List.getD_cons_succ] at h
          simp only [List.flatten_cons, List.mem_append]
          exact Or.inr (ih h)

/-- An element of the flattened levels is in some indexed level. -/
theorem flatten_mem_getD {levels : List (List String)} {u : String}
    (h : u ∈ levels.flatten) : ∃ i, u ∈ levels.getD i [] := by
  induction levels with
  | nil => simp at h
  | cons L rest ih =>
      simp only [List.flatten_cons, List.mem_append] at h
      rcases h with h | h
      · exact ⟨0, h⟩
      · obtain ⟨i, hi⟩ := ih h
        exact ⟨i + 1, hi⟩

/-- With duplicate-free flattened levels, an element determines its level
index. -/
theorem getD_unique_of_nodup {levels : List (List String)}
    (hn : levels.flatten.Nodup) {u : String} {i j : Nat}
    (hi : u ∈ levels.getD i []) (hj : u ∈ levels.getD j []) : i = j := by
  induction levels generalizing i j with
  | nil => simp at hi
  | cons L rest ih =>
      simp only [List.flatten_cons] at hn
      have hsplit := List.nodup_append.mp hn
      have hdisj : ∀ a ∈ L, a ∉ rest.flatten :=
        fun a ha hm => hsplit.2.2 ha hm
      cases i with
      | zero =>
          cases j with
          | zero => rfl
          | succ j' =>
              simp only [List.getD_cons_zero] at hi
              simp only [List.getD_cons_succ] at hj
              exact absurd (mem_getD_flatten hj) (hdisj u hi)
      | succ i' =>
          cases j with
          | zero =>
              simp only [List.getD_cons_zero] at hj
              simp only [List.getD_cons_succ] at hi
              exact absurd (mem_getD_flatten hi) (hdisj u hj)
          | succ j' =>
              simp only [List.getD_cons_succ] at hi hj
              have : rest.flatten.Nodup := (List.nodup_append.mp hn).2.1
              exact congrArg Nat.succ (ih this hi hj)

/-- In a stratified level list, every dependency of a unit in level `i`
was placed before level `i`. -/
theorem okLevels_earlier (dep : List (String × List String)) :
    ∀ (levels : List (List String)) (placed : List String),
      okLevels dep placed levels →
      ∀ (i : Nat) (u : String), u ∈ levels.getD i [] →
        ∀ d ∈ lookupDeps dep u,
          d ∈ placed ∨ ∃ j, j < i ∧ d ∈ levels.getD j [] := by
  intro levels
  induction levels with
  | nil => intro placed _ i u hu; simp at hu
  | cons L rest ih =>
      intro placed hok i u hu d hd
      obtain ⟨hL, hrest⟩ := hok
      cases i with
      | zero =>
          simp only [List.getD_cons_zero] at hu
          exact Or.inl (hL u hu d hd)
      | succ i' =>
          simp only [List.getD_cons_succ] at hu
          rcases ih (placed ++ L) hrest i' u hu d hd with hp | ⟨j, hj, hmem⟩
          · rcases List.mem_append.mp hp with h | h
            · exact Or.inl h
            · exact Or.inr ⟨0, Nat.succ_pos _, h⟩
          · exact Or.inr ⟨j + 1, Nat.succ_lt_succ hj, hmem⟩

/-- `getD` through `map` at an in-range index. -/
theorem map_getD {α β : Type} (f : α → β) (l : List α) (j : Nat)
    (da : α) (db : β) (hj : j < l.length) :
    (l.map f).getD j db = f (l.getD j da) := by
  induction l generalizing j with
  | nil => simp at hj
  | cons hd tl ih =>
      cases j with
      | zero => rfl
      | succ j' =>
          simp only [List.map_cons, List.getD_cons_succ]
          exact ih j' (Nat.lt_of_succ_lt_succ hj)

/-- The reassembly header scan is the takeWhile/filter characterization:
package lines then (precedence-adjusted) import lines of the leading
header region. -/
theorem headerScan_eq (ls : List String) :
    headerScan ls =
      ((ls.takeWhile headerRegionLine).filter pkgLine,
       (ls.takeWhile headerRegionLine).filter
         (fun l => !pkgLine l && importishLine l)) := by
  induction ls with
  | nil => rfl
  | cons line rest ih =>
      by_cases hp : strStartsWith line "package " = true
      · simp [headerScan, hp, ih, List.takeWhile_cons, headerRegionLine,
          pkgLine, importishLine, blankOrComment]
      · by_cases hi : (strStartsWith line "import " ||
            strStartsWith (pyStrip line) "\"") = true
        · simp [headerScan, hp, hi, ih, List.takeWhile_cons, headerRegionLine,
            pkgLine, importishLine, blankOrComment]
        · by_cases hb : (pyStrip line = "" ||
              strStartsWith (pyStrip line) "//") = true
          · simp only [Bool.or_eq_true, decide_eq_true_eq] at hi hb
            simp [headerScan, hp, hi, hb, ih, List.takeWhile_cons,
              headerRegionLine, pkgLine, importishLine, blankOrComment]
          · simp only [Bool.or_eq_true, decide_eq_true_eq] at hi hb
            simp [headerScan, hp, hi, hb, List.takeWhile_cons,
              headerRegionLine, pkgLine, importishLine, blankOrComment]

/-- Once past the header region, the body scan keeps everything. -/
theorem bodyScan_false_id (ls : List String) : bodyScan false ls = ls := by
  induction ls with
  | nil => rfl
  | cons line rest ih => simp [bodyScan, ih]

/-- In header-skipping mode the body scan is exactly `dropWhile` of the
header-skip predicate. -/
theorem bodyScan_true_eq (ls : List String) :
    bodyScan true ls = ls.dropWhile bodySkipLine := by
  induction ls with
  | nil => rfl
  | cons line rest ih =>
      by_cases hpi : (strStartsWith line "package " ||
          strStartsWith line "import ") = true
      · have hskip : bodySkipLine line = true := by
          simp only [Bool.or_eq_true] at hpi
          simp only [bodySkipLine, Bool.or_eq_true, decide_eq_true_eq]
          tauto
        simp [bodyScan, List.dropWhile_cons, hpi, hskip, ih]
      · simp only [Bool.or_eq_true, not_or, Bool.not_eq_true] at hpi
        obtain ⟨hp, hi⟩ := hpi
        by_cases hblank : pyStrip line = ""
        · have hskip : bodySkipLine line = true := by
            simp [bodySkipLine, hblank]
          simp [bodyScan, List.dropWhile_cons, hp, hi, hblank, hskip, ih]
        · by_cases hcom : strStartsWith (pyStrip line) "//" = true
          · have hskip : bodySkipLine line = true := by
              simp [bodySkipLine, hcom]
            simp [bodyScan, List.dropWhile_cons, hp, hi, hblank, hcom, hskip, ih]
          · simp only [Bool.not_eq_true] at hcom
            have hskip : bodySkipLine line = false := by
              simp [bodySkipLine, hp, hi, hblank, hcom]
            simp [bodyScan, List.dropWhile_cons, hp, hi, hblank, hcom, hskip,
              bodyScan_false_id]

/-- The per-chunk body accumulation is a map-and-flatten. -/
theorem foldr_parts_eq (p : ChunkResult → List String)
    (l : List ChunkResult) :
    l.foldr (fun r acc => p r ++ acc) [] = (l.map p).flatten := by
  induction l with
  | nil => rfl
  | cons hd tl ih => simp [ih]


/-! ## C10 -/

/-- C10: `compute_file_hash` ignores its path argument — for any two paths
and the same content it returns the same value, namely the SHA-256 hex
digest of the UTF-8 encoding of the content.  Moving a file without
changing its content does not change its fingerprint. -/
theorem compute_file_hash_path_independent (p1 p2 c : String) :
    compute_file_hash p1 c = compute_file_hash p2 c ∧
    compute_file_hash p1 c = sha256Hex (utf8Encode c) :=
  ⟨rfl, rfl⟩

/-! ## C5 -/

/-- C5: with the store unreachable, `file_changed` returns `True` (and
changes nothing), `get_conversion_output` returns absent,
`store_conversion_output` returns failure without modifying state, and any
work item processed against such a store yields an uncached, successful
result over a still-unreachable store — the run degrades to zero cache
hits instead of erroring out. -/
theorem cache_unreachable_degrades (p c g : String) (m : List (String × String))
    (st : RedisState) (translate : String → Option String)
    (buildPrompt : String → FileInfo → String → String)
    (goModule : String → String) (item : WorkItem)
    (h : st.available = false) :
    file_changed p c st = (true, st) ∧
    get_conversion_output p st = none ∧
    store_conversion_output p g m st = (false, st) ∧
    (process_work_item translate buildPrompt goModule item st).1.cached = false ∧
    (process_work_item translate buildPrompt goModule item st).1.success = true ∧
    (process_work_item translate buildPrompt goModule item st).2 = st := by
  refine ⟨?_, ?_, ?_, ?_, ?_, ?_⟩ <;>
    simp [file_changed, get_conversion_output, store_conversion_output,
      process_work_item, h]

/-- Witness for C5 at a concrete unreachable store, item and oracles. -/
theorem cache_unreachable_degrades_witness :
    file_changed "a.py" "print(1)" ⟨false, [], []⟩ = (true, ⟨false, [], []⟩) ∧
    get_conversion_output "a.py" ⟨false, [], []⟩ = none ∧
    store_conversion_output "a.py" "package main" [] ⟨false, [], []⟩ =
      (false, ⟨false, [], []⟩) ∧
    (process_work_item (fun s => some s) (fun c _ _ => c) (fun _ => "mod")
      ⟨⟨"a.py", "a.py", "print(1)", 1⟩, "ctx", 0, true⟩ ⟨false, [], []⟩).1.cached
      = false ∧
    (process_work_item (fun s => some s) (fun c _ _ => c) (fun _ => "mod")
      ⟨⟨"a.py", "a.py", "print(1)", 1⟩, "ctx", 0, true⟩ ⟨false, [], []⟩).1.success
      = true ∧
    (process_work_item (fun s => some s) (fun c _ _ => c) (fun _ => "mod")
      ⟨⟨"a.py", "a.py", "print(1)", 1⟩, "ctx", 0, true⟩ ⟨false, [], []⟩).2 =
      ⟨false, [], []⟩ :=
  cache_unreachable_degrades "a.py" "print(1)" "package main" [] ⟨false, [], []⟩
    (fun s => some s) (fun c _ _ => c) (fun _ => "mod")
    ⟨⟨"a.py", "a.py", "print(1)", 1⟩, "ctx", 0, true⟩ rfl

/-! ## C6 -/

/-- C6: with the store available, `file_changed` returns `True` on the
first call for a new id, `False` on a second call with identical content,
and `True` again when the content's hash differs from the stored
fingerprint; after every call the stored fingerprint equals the current
content's hash. -/
theorem file_changed_fingerprint_protocol (p c1 c2 : String) (st : RedisState)
    (hav : st.available = true) (hnew : kvGet st.fileHashes p = none)
    (hdiff : compute_file_hash p c2 ≠ compute_file_hash p c1) :
    (file_changed p c1 st).1 = true ∧
    kvGet (file_changed p c1 st).2.fileHashes p =
      some (compute_file_hash p c1) ∧
    (file_changed p c1 (file_changed p c1 st).2).1 = false ∧
    kvGet (file_changed p c1 (file_changed p c1 st).2).2.fileHashes p =
      some (compute_file_hash p c1) ∧
    (file_changed p c2 (file_changed p c1 (file_changed p c1 st).2).2).1
      = true ∧
    kvGet (file_changed p c2
        (file_changed p c1 (file_changed p c1 st).2).2).2.fileHashes p =
      some (compute_file_hash p c2) := by
  have h1 : file_changed p c1 st =
      (true, { st with fileHashes := kvSet st.fileHashes p (compute_file_hash p c1) }) := by
    unfold file_changed
    simp [hav, hnew]
  have h2 : file_changed p c1 (file_changed p c1 st).2 =
      (false, (file_changed p c1 st).2) := by
    rw [h1]
    unfold file_changed
    simp [hav, kvGet_kvSet_same]
  refine ⟨by rw [h1], by rw [h1]; exact kvGet_kvSet_same _ _ _, by rw [h2],
    ?_, ?_, ?_⟩
  · rw [h2, h1]
    exact kvGet_kvSet_same _ _ _
  · rw [h2, h1]
    unfold file_changed
    simp [hav, kvGet_kvSet_same, Ne.symm hdiff]
  · rw [h2, h1]
    unfold file_changed
    simp only [hav]
    simp [kvGet_kvSet_same, Ne.symm hdiff, kvGet_kvSet_same]

/-- Witness for C6: a fresh store, a path and two contents with distinct
hashes. -/
theorem file_changed_fingerprint_protocol_witness :
    (file_changed "a.py" "x" ⟨true, [], []⟩).1 = true ∧
    kvGet (file_changed "a.py" "x" ⟨true, [], []⟩).2.fileHashes "a.py" =
      some (compute_file_hash "a.py" "x") ∧
    (file_changed "a.py" "x" (file_changed "a.py" "x" ⟨true, [], []⟩).2).1
      = false ∧
    kvGet (file_changed "a.py" "x"
        (file_changed "a.py" "x" ⟨true, [], []⟩).2).2.fileHashes "a.py" =
      some (compute_file_hash "a.py" "x") ∧
    (file_changed "a.py" "y" (file_changed "a.py" "x"
        (file_changed "a.py" "x" ⟨true, [], []⟩).2).2).1 = true ∧
    kvGet (file_changed "a.py" "y" (file_changed "a.py" "x"
        (file_changed "a.py" "x" ⟨true, [], []⟩).2).2).2.fileHashes "a.py" =
      some (compute_file_hash "a.py" "y") :=
  file_changed_fingerprint_protocol "a.py" "x" "y" ⟨true, [], []⟩ rfl rfl
    (by decide)

/-! ## C2 -/

/-- C2 (amended): on a cache miss (store reachable, fingerprint changed)
the worker converts via `_convert_file_with_model`, which calls the
translation engine directly on the whole unit irrespective of its size —
the `Split`/per-chunk/`Reassemble` path is not part of the worker flow —
and on success (non-empty output) stores the output in the cache before
emitting the `WorkResult`. -/
theorem worker_converts_directly_and_caches
    (translate : String → Option String)
    (buildPrompt : String → FileInfo → String → String)
    (goModule : String → String) (item : WorkItem) (st : RedisState)
    (hav : st.available = true)
    (hmiss : (file_changed item.file_info.path item.file_info.content st).1
      = true) :
    (process_work_item translate buildPrompt goModule item st).1.cached
      = false ∧
    (process_work_item translate buildPrompt goModule item st).1.go_code =
      convert_file_with_model translate buildPrompt item.file_info
        item.context item.use_fast_model ∧
    (process_work_item translate buildPrompt goModule item st).1.go_code =
      translate (buildPrompt item.file_info.content item.file_info
        item.context) ∧
    (process_work_item translate buildPrompt goModule item st).1.success
      = true ∧
    (process_work_item translate buildPrompt goModule item st).1.model_used
      = (if item.use_fast_model then "fast" else "smart") ∧
    (∀ g, translate (buildPrompt item.file_info.content item.file_info
        item.context) = some g → g ≠ "" →
      kvGet (process_work_item translate buildPrompt goModule item
          st).2.conversions item.file_info.path =
        some ⟨g, [("module", goModule item.file_info.name),
                  ("model", if item.use_fast_model then "fast" else "smart")]⟩) := by
  have hav2 : (file_changed item.file_info.path item.file_info.content
      st).2.available = true := by
    rw [file_changed_available]; exact hav
  unfold process_work_item
  simp only [hav, if_true, hmiss]
  refine ⟨rfl, rfl, rfl, rfl, rfl, ?_⟩
  intro g hg hne
  simp only [convert_file_with_model, hg, hav2, goTruthy, hne,
    store_conversion_output]
  simp only [hav2, Bool.not_true, Bool.false_eq_true, if_false,
    Option.getD_some]
  simp [hne, kvGet_kvSet_same]

/-- Witness for C2 (amended) at a concrete oversized unit, empty store and
tagging oracles. -/
theorem worker_converts_directly_and_caches_witness :
    (process_work_item sampleTranslate samplePrompt sampleGoModule bigItem
      emptyStore).1.cached = false ∧
    (process_work_item sampleTranslate samplePrompt sampleGoModule bigItem
      emptyStore).1.go_code =
      some "T:P:def a():\n x = 1\ndef b():\n y = 2" ∧
    kvGet (process_work_item sampleTranslate samplePrompt sampleGoModule
        bigItem emptyStore).2.conversions "big.py" =
      some ⟨"T:P:def a():\n x = 1\ndef b():\n y = 2",
            [("module", "mod"), ("model", "fast")]⟩ := by
  have h := worker_converts_directly_and_caches sampleTranslate samplePrompt
    sampleGoModule bigItem emptyStore rfl (by decide)
  refine ⟨h.1, ?_, ?_⟩
  · rw [h.2.2.1]; rfl
  · have := h.2.2.2.2.2 "T:P:def a():\n x = 1\ndef b():\n y = 2" rfl
      (by decide)
    simpa using this

/-- Counterexample to C2 as stated: `bigItem`'s unit has 601 lines (above
the 500-line threshold, so `should_chunk_file` holds) and misses the empty
cache, yet the worker's emitted output is the engine's direct answer on
the whole unit, which differs from the output of the
`Split`/per-chunk/`Reassemble` path on the same unit and oracles. -/
theorem worker_never_chunks_counterexample :
    should_chunk_file 500 bigItem.file_info.lines = true ∧
    (file_changed bigItem.file_info.path bigItem.file_info.content
      emptyStore).1 = true ∧
    (process_work_item sampleTranslate samplePrompt sampleGoModule bigItem
      emptyStore).1.go_code =
      some "T:P:def a():\n x = 1\ndef b():\n y = 2" ∧
    convert_with_chunks 500 bigParse sampleTranslate sampleChunkPrompt "FB"
      bigItem.file_info.content bigItem.file_info.path =
      "T:C:def a():\n x = 1\ndef b():\n y = 2\n" ∧
    (process_work_item sampleTranslate samplePrompt sampleGoModule bigItem
      emptyStore).1.go_code ≠
      some (convert_with_chunks 500 bigParse sampleTranslate
        sampleChunkPrompt "FB" bigItem.file_info.content
        bigItem.file_info.path) := by
  refine ⟨rfl, by decide, ?_, by decide, ?_⟩ <;> decide

/-! ## C7 -/

/-- C7 (amended): a failing chunk does not abort the unit — the conversion
still returns the reassembly of a full-length result list in which the
failing chunk's output is the `// TODO: Chunk conversion failed` placeholder
and every successfully translated chunk keeps its translated output (the
comment-only placeholder itself is then stripped by the reassembly body
scan, so it does not appear in the final output). -/
theorem chunk_failure_yields_placeholder
    (maxLines : Nat) (parse : String → Option (List PyDef × String))
    (translate : String → Option String)
    (buildChunkPrompt : CodeChunk → String)
    (fallback python_code fi_path : String) (i : Nat)
    (hi : i < (chunk_file maxLines parse fi_path python_code).length)
    (hfail : translate (buildChunkPrompt
      ((chunk_file maxLines parse fi_path python_code).getD i
        ⟨0, 0, 0, "", "", "", [], ""⟩)) = none) :
    ∃ results : List ChunkResult,
      convert_with_chunks maxLines parse translate buildChunkPrompt fallback
        python_code fi_path = reassemble_chunks results ∧
      results.length =
        (chunk_file maxLines parse fi_path python_code).length ∧
      (results.getD i ⟨0, "", ""⟩).go_code =
        "// TODO: Chunk conversion failed for " ++
          ((chunk_file maxLines parse fi_path python_code).getD i
            ⟨0, 0, 0, "", "", "", [], ""⟩).name ++ "\n" ∧
      (∀ j, j < (chunk_file maxLines parse fi_path python_code).length →
        ∀ g, translate (buildChunkPrompt
          ((chunk_file maxLines parse fi_path python_code).getD j
            ⟨0, 0, 0, "", "", "", [], ""⟩)) = some g →
        (results.getD j ⟨0, "", ""⟩).go_code = g) := by
  have hne : (chunk_file maxLines parse fi_path python_code).isEmpty
      = false := by
    cases hck : chunk_file maxLines parse fi_path python_code with
    | nil => rw [hck] at hi; simp at hi
    | cons c cs => rfl
  refine ⟨(chunk_file maxLines parse fi_path python_code).map
    (fun c =>
      match translate (buildChunkPrompt c) with
      | some go_code => ChunkResult.mk c.chunk_id go_code c.name
      | none =>
          ChunkResult.mk c.chunk_id
            ("// TODO: Chunk conversion failed for " ++ c.name ++ "\n")
            c.name), ?_, by simp, ?_, ?_⟩
  · simp only [convert_with_chunks, hne, Bool.false_eq_true, if_false]
  · rw [map_getD _ _ i ⟨0, 0, 0, "", "", "", [], ""⟩ _ hi, hfail]
  · intro j hj g hg
    rw [map_getD _ _ j ⟨0, 0, 0, "", "", "", [], ""⟩ _ hj, hg]

/-- Witness for C7 (amended): four one-line chunks with the second one's
translation failing. -/
theorem chunk_failure_yields_placeholder_witness :
    ∃ results : List ChunkResult,
      convert_with_chunks 1 quadParse failG2Translate sampleChunkPrompt "FB"
        "l1\nl2\nl3\nl4" "f.py" = reassemble_chunks results ∧
      results.length =
        (chunk_file 1 quadParse "f.py" "l1\nl2\nl3\nl4").length ∧
      (results.getD 1 ⟨0, "", ""⟩).go_code =
        "// TODO: Chunk conversion failed for " ++
          ((chunk_file 1 quadParse "f.py" "l1\nl2\nl3\nl4").getD 1
            ⟨0, 0, 0, "", "", "", [], ""⟩).name ++ "\n" ∧
      (∀ j, j < (chunk_file 1 quadParse "f.py" "l1\nl2\nl3\nl4").length →
        ∀ g, failG2Translate (sampleChunkPrompt
          ((chunk_file 1 quadParse "f.py" "l1\nl2\nl3\nl4").getD j
            ⟨0, 0, 0, "", "", "", [], ""⟩)) = some g →
        (results.getD j ⟨0, "", ""⟩).go_code = g) :=
  chunk_failure_yields_placeholder 1 quadParse failG2Translate
    sampleChunkPrompt "FB" "l1\nl2\nl3\nl4" "f.py" 1 (by decide) (by decide)

/-- Counterexample to C7 as stated: with four chunks and the second
failing, the final reassembled output contains the three successfully
translated bodies but NOT the placeholder marker — the comment-only
placeholder is stripped by the reassembly scan. -/
theorem chunk_placeholder_stripped_counterexample :
    failG2Translate (sampleChunkPrompt
      ((chunk_file 1 quadParse "f.py" "l1\nl2\nl3\nl4").getD 1
        ⟨0, 0, 0, "", "", "", [], ""⟩)) = none ∧
    convert_with_chunks 1 quadParse failG2Translate sampleChunkPrompt "FB"
      "l1\nl2\nl3\nl4" "f.py" = "T:C:l1\n\nT:C:l3\n\nT:C:l4\n" ∧
    (pySplitlines (convert_with_chunks 1 quadParse failG2Translate
      sampleChunkPrompt "FB" "l1\nl2\nl3\nl4" "f.py")).count
      "// TODO: Chunk conversion failed for g2" = 0 := by
  refine ⟨by decide, by decide, by decide⟩

/-! ## C9 -/

/-- C9: a unit whose top-level declarations are three functions of 300,
500 and 450 lines, chunked with the 500-line threshold, yields exactly 3
chunks (hence at least 3), none of which spans more than 500 lines;
`chunk_file` is a pure function of its inputs, so the chunk count is the
same on every call. -/
theorem chunk_three_functions
    (parse : String → Option (List PyDef × String)) (path code ctx : String)
    (d1 d2 d3 : PyDef)
    (hparse : parse code = some ([d1, d2, d3], ctx))
    (hk1 : d1.kind = .function) (hk2 : d2.kind = .function)
    (hk3 : d3.kind = .function)
    (h1 : defSpan d1 = 300) (h2 : defSpan d2 = 500) (h3 : defSpan d3 = 450) :
    (chunk_file 500 parse path code).length = 3 ∧
    ∀ c ∈ chunk_file 500 parse path code,
      c.end_line - c.start_line + 1 ≤ 500 := by
  have hck : chunk_file 500 parse path code =
      [create_chunk 0 [d1] (pySplitlines code) ctx,
       create_chunk 1 [d2] (pySplitlines code) ctx,
       create_chunk 2 [d3] (pySplitlines code) ctx] := by
    unfold chunk_file
    rw [hparse]
    simp only [chunkLoop, h1, h2, h3]
    norm_num
  refine ⟨by rw [hck]; rfl, ?_⟩
  intro c hc
  rw [hck] at hc
  simp only [List.mem_cons, List.not_mem_nil, or_false] at hc
  unfold defSpan at h1 h2 h3
  rcases hc with rfl | rfl | rfl <;>
    simp only [create_chunk, minStart, maxEnd, List.foldl_nil] <;> omega

/-- Witness for C9: functions at lines 1–300, 301–800 and 801–1250 of a
1250-line unit. -/
theorem chunk_three_functions_witness :
    (chunk_file 500
      (fun _ => some ([⟨.function, "f1", 1, 300, [], []⟩,
                       ⟨.function, "f2", 301, 800, [], []⟩,
                       ⟨.function, "f3", 801, 1250, [], []⟩], "import os"))
      "big.py" (joinLines (List.replicate 1250 "x"))).length = 3 ∧
    ∀ c ∈ chunk_file 500
      (fun _ => some ([⟨.function, "f1", 1, 300, [], []⟩,
                       ⟨.function, "f2", 301, 800, [], []⟩,
                       ⟨.function, "f3", 801, 1250, [], []⟩], "import os"))
      "big.py" (joinLines (List.replicate 1250 "x")),
      c.end_line - c.start_line + 1 ≤ 500 :=
  chunk_three_functions _ "big.py" (joinLines (List.replicate 1250 "x"))
    "import os" ⟨.function, "f1", 1, 300, [], []⟩
    ⟨.function, "f2", 301, 800, [], []⟩ ⟨.function, "f3", 801, 1250, [], []⟩
    rfl rfl rfl rfl (by decide) (by decide) (by decide)

/-! ## C8 -/

/-- C8 (amended): for every non-empty chunk-result list, reassembly equals
the composition of (a) the header taken from the first chunk's leading
package/import region (package lines, then import lines, blank/comment
lines omitted) and (b) the chunks' bodies in original chunk order,
obtained by stripping only each output's leading header region, separated
by blank lines.  Header lines re-emitted after body content are kept, not
stripped.  The function is pure, so the result is the same on every call
with the same inputs. -/
theorem reassemble_structure (rs : List ChunkResult) (h : rs ≠ []) :
    reassemble_chunks rs =
      String.intercalate "\n"
        (specHeaderParts (rs.headD default).go_code ++
          (rs.map (fun r => specBodyParts r.go_code)).flatten) := by
  have hne : rs.isEmpty = false := by
    cases rs with
    | nil => exact absurd rfl h
    | cons a as => rfl
  unfold reassemble_chunks
  rw [hne]
  simp only [Bool.false_eq_true, if_false, headerScan_eq, foldr_parts_eq,
    specHeaderParts, specBodyParts, specBody, bodyScan_true_eq]

/-- Witness for C8 (amended) at a concrete two-chunk input. -/
theorem reassemble_structure_witness :
    reassemble_chunks
      [⟨0, "package main\n\nvar A = 1", "a"⟩,
       ⟨1, "var B = 2\npackage main", "b"⟩] =
      String.intercalate "\n"
        (specHeaderParts
          (([⟨0, "package main\n\nvar A = 1", "a"⟩,
             ⟨1, "var B = 2\npackage main", "b"⟩] :
              List ChunkResult).headD default).go_code ++
          (([⟨0, "package main\n\nvar A = 1", "a"⟩,
             ⟨1, "var B = 2\npackage main", "b"⟩] :
              List ChunkResult).map
            (fun r => specBodyParts r.go_code)).flatten) :=
  reassemble_structure
    [⟨0, "package main\n\nvar A = 1", "a"⟩,
     ⟨1, "var B = 2\npackage main", "b"⟩] (by decide)

/-- Counterexample to C8 as stated: the second chunk re-emits
`package main` after a body line; reassembly keeps it, so the final output
contains two `package main` lines — re-emitted header lines are NOT
stripped from body regions. -/
theorem reassemble_keeps_late_header_counterexample :
    reassemble_chunks
      [⟨0, "package main\n\nvar A = 1", "a"⟩,
       ⟨1, "var B = 2\npackage main", "b"⟩] =
      "package main\n\nvar A = 1\n\nvar B = 2\npackage main\n" ∧
    (pySplitlines (reassemble_chunks
      [⟨0, "package main\n\nvar A = 1", "a"⟩,
       ⟨1, "var B = 2\npackage main", "b"⟩])).count "package main" = 2 := by
  refine ⟨by decide, by decide⟩

/-! ## C3 -/

/-- C3: for every dependency graph (cycles included) the scheduling loop,
run with its `|all_files|` fuel, places every unit into some level — the
`while` loop terminates having processed everything — and whenever no
not-yet-placed unit has all its dependencies placed, all remaining units
are placed together into one single final level. -/
theorem scheduler_terminates_and_collapses_cycles
    (fd : List (String × List String)) (scanned : Option (List ScannedFile)) :
    (∀ u ∈ (scanGraph (filteringOf scanned) (actualOf scanned) fd).1,
       u ∈ (build_dependency_levels fd scanned).flatten) ∧
    (∀ (P : List String) (fuel : Nat),
       P.length < (scanGraph (filteringOf scanned) (actualOf scanned)
         fd).1.length →
       eligibleFiles (scanGraph (filteringOf scanned) (actualOf scanned) fd).1
         (scanGraph (filteringOf scanned) (actualOf scanned) fd).2 P = [] →
       levelsLoop (scanGraph (filteringOf scanned) (actualOf scanned) fd).1
         (scanGraph (filteringOf scanned) (actualOf scanned) fd).2
         (fuel + 1) P =
         [remainingFiles
           (scanGraph (filteringOf scanned) (actualOf scanned) fd).1 P]) := by
  have hA := scanGraph_nodup (filteringOf scanned) (actualOf scanned) fd
  constructor
  · intro u hu
    have hAe : ((scanGraph (filteringOf scanned) (actualOf scanned)
        fd).1).isEmpty = false := by
      cases h : (scanGraph (filteringOf scanned) (actualOf scanned) fd).1 with
      | nil => rw [h] at hu; exact absurd hu (List.not_mem_nil u)
      | cons a as => rfl
    have hbuild : build_dependency_levels fd scanned =
        levelsLoop (scanGraph (filteringOf scanned) (actualOf scanned) fd).1
          (scanGraph (filteringOf scanned) (actualOf scanned) fd).2
          (scanGraph (filteringOf scanned) (actualOf scanned) fd).1.length
          [] := by
      simp [build_dependency_levels, hAe]
    rw [hbuild]
    refine levelsLoop_covers _ _ _ [] hA List.nodup_nil ?_ (by simp) u hu
      (List.not_mem_nil u)
    intro x hx
    exact absurd hx (List.not_mem_nil x)
  · intro P fuel hguard hempty
    exact levelsLoop_fallback _ _ P fuel hA hguard hempty

/-- Witness for C3 at the two-cycle `A ↔ B`: `A` is placed, and from the
empty processed set (nothing eligible) the loop emits the single
remaining-files level. -/
theorem scheduler_terminates_witness :
    "A" ∈ (build_dependency_levels [("A", ["B"]), ("B", ["A"])] none).flatten ∧
    levelsLoop
      (scanGraph (filteringOf none) (actualOf none)
        [("A", ["B"]), ("B", ["A"])]).1
      (scanGraph (filteringOf none) (actualOf none)
        [("A", ["B"]), ("B", ["A"])]).2 1 [] =
      [remainingFiles
        (scanGraph (filteringOf none) (actualOf none)
          [("A", ["B"]), ("B", ["A"])]).1 []] := by
  have h := scheduler_terminates_and_collapses_cycles
    [("A", ["B"]), ("B", ["A"])] none
  exact ⟨h.1 "A" (by decide), h.2 [] 0 (by decide) (by decide)⟩

/-! ## C4 -/

/-- C4 (amended): with a non-empty scanned set, no unit outside the
scanned alias set ever appears in any level, and a dependency reference to
a unit that is not among the scheduled files is never satisfied — the
referencing unit is never eligible, so it can only be placed by the
cycle-collapse fallback (the edge is *not* treated as absent). -/
theorem scheduler_schedules_only_scanned
    (fd : List (String × List String)) (s : List ScannedFile) (hs : s ≠ []) :
    (∀ u ∈ (build_dependency_levels fd (some s)).flatten,
       u ∈ actualFiles s) ∧
    (∀ (u d : String),
       d ∈ lookupDeps
         (scanGraph (filteringOf (some s)) (actualOf (some s)) fd).2 u →
       d ∉ (scanGraph (filteringOf (some s)) (actualOf (some s)) fd).1 →
       ∀ (P : List String),
         (∀ x ∈ P,
           x ∈ (scanGraph (filteringOf (some s)) (actualOf (some s)) fd).1) →
         u ∉ eligibleFiles
           (scanGraph (filteringOf (some s)) (actualOf (some s)) fd).1
           (scanGraph (filteringOf (some s)) (actualOf (some s)) fd).2 P) := by
  have hf : filteringOf (some s) = true := by
    cases s with
    | nil => exact absurd rfl hs
    | cons a as => rfl
  constructor
  · intro u hu
    simp only [build_dependency_levels] at hu
    by_cases hcond : (filteringOf (some s) &&
        ((scanGraph (filteringOf (some s)) (actualOf (some s))
          fd).1).isEmpty) = true
    · rw [if_pos hcond] at hu
      simp only [Option.getD_some, List.flatten_cons, List.flatten_nil,
        List.append_nil, List.mem_map] at hu
      obtain ⟨f, hfs, rfl⟩ := hu
      exact mem_actualFiles hfs f.path (by simp [aliasesOf])
    · rw [if_neg hcond] at hu
      have huA := levelsLoop_mem _ _ _ _ u hu
      rw [hf] at huA
      exact scanGraph_subset_actual (actualOf (some s)) fd u huA
  · intro u d hd hdA P hPsub hel
    have hdP := (mem_eligibleFiles.mp hel).2.2 d hd
    exact hdA (hPsub d hdP)

/-- Witness for C4 (amended): `B` appears in a level and is a scanned
alias; `A`, whose dependency `X` is unscanned, is not eligible from the
empty processed set. -/
theorem scheduler_schedules_only_scanned_witness :
    "B" ∈ actualFiles [⟨"A", "A"⟩, ⟨"B", "B"⟩] ∧
    "A" ∉ eligibleFiles
      (scanGraph (filteringOf (some [⟨"A", "A"⟩, ⟨"B", "B"⟩]))
        (actualOf (some [⟨"A", "A"⟩, ⟨"B", "B"⟩]))
        [("A", ["X"]), ("B", ["A"])]).1
      (scanGraph (filteringOf (some [⟨"A", "A"⟩, ⟨"B", "B"⟩]))
        (actualOf (some [⟨"A", "A"⟩, ⟨"B", "B"⟩]))
        [("A", ["X"]), ("B", ["A"])]).2 [] := by
  have h := scheduler_schedules_only_scanned [("A", ["X"]), ("B", ["A"])]
    [⟨"A", "A"⟩, ⟨"B", "B"⟩] (by decide)
  refine ⟨h.1 "B" (by decide), ?_⟩
  refine h.2 "A" "X" (by decide) (by decide) [] ?_
  intro x hx
  exact absurd hx (List.not_mem_nil x)

/-- Counterexample to C4 as stated: with scanned units `A`, `B` and graph
`{A: [X], B: [A]}` (where `X` is unscanned), the schedule is the single
fallback level `[[A, B]]`; with the `A → X` edge removed it is
`[[A], [B]]`.  The unscanned reference is not ignored: it changes the
placement of both `A` and `B`. -/
theorem scheduler_unscanned_ref_counterexample :
    build_dependency_levels [("A", ["X"]), ("B", ["A"])]
      (some [⟨"A", "A"⟩, ⟨"B", "B"⟩]) = [["A", "B"]] ∧
    build_dependency_levels [("A", []), ("B", ["A"])]
      (some [⟨"A", "A"⟩, ⟨"B", "B"⟩]) = [["A"], ["B"]] ∧
    ([["A", "B"]] : List (List String)) ≠ [["A"], ["B"]] := by
  refine ⟨by decide, by decide, by decide⟩

/-! ## C1 -/

/-- C1 (amended): on a graph whose scheduled dependency relation is
acyclic (witnessed by a ranking), dependency-closed inside `all_files`,
and non-empty, the scheduler places every scheduled unit in exactly one
level, and every dependency of a unit in level `i` lies in a strictly
earlier level `j < i`.  (Scanned units that never occur in the graph are
not scheduled at all — see the counterexample.) -/
theorem scheduler_stratifies_acyclic
    (fd : List (String × List String)) (scanned : Option (List ScannedFile))
    (rank : String → Nat)
    (hdeps : ∀ u ∈ (scanGraph (filteringOf scanned) (actualOf scanned) fd).1,
       ∀ d ∈ lookupDeps
         (scanGraph (filteringOf scanned) (actualOf scanned) fd).2 u,
       d ∈ (scanGraph (filteringOf scanned) (actualOf scanned) fd).1)
    (hrank : ∀ u ∈ (scanGraph (filteringOf scanned) (actualOf scanned) fd).1,
       ∀ d ∈ lookupDeps
         (scanGraph (filteringOf scanned) (actualOf scanned) fd).2 u,
       rank d < rank u)
    (hne : (scanGraph (filteringOf scanned) (actualOf scanned) fd).1 ≠ []) :
    (∀ u ∈ (scanGraph (filteringOf scanned) (actualOf scanned) fd).1,
       (∃ i, u ∈ (build_dependency_levels fd scanned).getD i []) ∧
       ∀ i j, u ∈ (build_dependency_levels fd scanned).getD i [] →
         u ∈ (build_dependency_levels fd scanned).getD j [] → i = j) ∧
    (∀ (i : Nat) (u : String),
       u ∈ (build_dependency_levels fd scanned).getD i [] →
       ∀ d ∈ lookupDeps
         (scanGraph (filteringOf scanned) (actualOf scanned) fd).2 u,
       ∃ j, j < i ∧ d ∈ (build_dependency_levels fd scanned).getD j []) := by
  have hA := scanGraph_nodup (filteringOf scanned) (actualOf scanned) fd
  have hAe : ((scanGraph (filteringOf scanned) (actualOf scanned)
      fd).1).isEmpty = false := by
    cases h : (scanGraph (filteringOf scanned) (actualOf scanned) fd).1 with
    | nil => exact absurd h hne
    | cons a as => rfl
  have hbuild : build_dependency_levels fd scanned =
      levelsLoop (scanGraph (filteringOf scanned) (actualOf scanned) fd).1
        (scanGraph (filteringOf scanned) (actualOf scanned) fd).2
        (scanGraph (filteringOf scanned) (actualOf scanned) fd).1.length
        [] := by
    simp [build_dependency_levels, hAe]
  have hnilsub : ∀ x ∈ ([] : List String),
      x ∈ (scanGraph (filteringOf scanned) (actualOf scanned) fd).1 := by
    intro x hx
    exact absurd hx (List.not_mem_nil x)
  obtain ⟨hok, hnd, _⟩ := levelsLoop_stratified
    (scanGraph (filteringOf scanned) (actualOf scanned) fd).1
    (scanGraph (filteringOf scanned) (actualOf scanned) fd).2 rank hdeps hrank
    (scanGraph (filteringOf scanned) (actualOf scanned) fd).1.length []
    hA List.nodup_nil hnilsub
  constructor
  · intro u hu
    constructor
    · have hc := levelsLoop_covers
        (scanGraph (filteringOf scanned) (actualOf scanned) fd).1
        (scanGraph (filteringOf scanned) (actualOf scanned) fd).2
        (scanGraph (filteringOf scanned) (actualOf scanned) fd).1.length []
        hA List.nodup_nil hnilsub (by simp) u hu (List.not_mem_nil u)
      rw [hbuild]
      exact flatten_mem_getD hc
    · intro i j hi hj
      rw [hbuild] at hi hj
      exact getD_unique_of_nodup hnd hi hj
  · intro i u hu d hd
    rw [hbuild] at hu
    rcases okLevels_earlier _ _ [] hok i u hu d hd with hp | ⟨j, hj, hm⟩
    · exact absurd hp (List.not_mem_nil d)
    · refine ⟨j, hj, ?_⟩
      rw [hbuild]
      exact hm

/-- Witness for C1 (amended) on `{A: [], B: [A], C: [A]}`: `C` sits in
level 1 and its dependency `A` in level 0. -/
theorem scheduler_stratifies_acyclic_witness :
    "C" ∈ (build_dependency_levels
      [("A", []), ("B", ["A"]), ("C", ["A"])] none).getD 1 [] ∧
    "A" ∈ (build_dependency_levels
      [("A", []), ("B", ["A"]), ("C", ["A"])] none).getD 0 [] := by
  have h := scheduler_stratifies_acyclic
    [("A", []), ("B", ["A"]), ("C", ["A"])] none
    (fun v => if v = "A" then 0 else 1) (by decide) (by decide) (by decide)
  have h1 : "C" ∈ (build_dependency_levels
      [("A", []), ("B", ["A"]), ("C", ["A"])] none).getD 1 [] := by decide
  obtain ⟨j, hj, hm⟩ := h.2 1 "C" h1 "A" (by decide)
  have hj0 : j = 0 := by omega
  subst hj0
  exact ⟨h1, hm⟩

/-- Counterexample to C1 as stated: with scanned units `A` and `B` and the
(acyclic, dependency-free) graph `{A: []}`, the schedule is `[[A]]` — the
scanned unit `B` appears in no level at all, violating "every scanned
unit appears in exactly one level". -/
theorem scanned_unit_unscheduled_counterexample :
    build_dependency_levels [("A", [])]
      (some [⟨"A", "A"⟩, ⟨"B", "B"⟩]) = [["A"]] ∧
    "B" ∉ (build_dependency_levels [("A", [])]
      (some [⟨"A", "A"⟩, ⟨"B", "B"⟩])).flatten ∧
    lookupDeps (scanGraph (filteringOf (some [⟨"A", "A"⟩, ⟨"B", "B"⟩]))
      (actualOf (some [⟨"A", "A"⟩, ⟨"B", "B"⟩])) [("A", [])]).2 "A" = [] := by
  refine ⟨by decide, by decide, by decide⟩

end ErpMig
